import Mathlib

/-!
Shallow embedding of the two algorithmic cores of the tutorial-notebook
repository:

* `TagsHasher` (feature hashing of tagged key/value attributes onto a
  fixed-size numeric vector), from `Image_Search_via_Text.ipynb`;
* `SimpleRanker.rank` (chunk-to-parent score aggregation and reranking)
  and `LMDBStorage.search` (resolution of parent payloads from a
  key-value store), from the image-search notebook sources.

Python numbers are modelled exactly: `int` as `ℤ`, `float` as `ℚ`.
This is an exact-arithmetic idealization of IEEE-754: the non-finite
floats `nan`/`inf` are not representable, decimal-to-double rounding is
idealized away, numpy's float64 `table[col] += val` accumulation (which
rounds and is non-associative) becomes exact rational addition, and
CPython's float `%` (fmod followed by a rounded `+ m`, which can return
exactly the modulus) becomes the exact floor modulus.  Properties whose
truth on the program depends on that rounding behaviour are therefore
outside the scope of this embedding; the claims settled here do not rest
on it.  Fallible Python code is modelled in the `Except` monad; the
error kind mirrors the Python exception class raised.
-/

namespace TutorialNotebooks

/-! ## MD5 (RFC 1321), used by `TagsHasher._any_hash` via `hashlib.md5`.

32-bit machine words are `ℕ` reduced mod `2^32` at every operation. -/

def m32 : ℕ := 4294967296

/-- Left-rotation of a 32-bit word. -/
def rotl32 (x n : ℕ) : ℕ := (x <<< n + x >>> (32 - n)) % m32

/-- Bitwise complement of a 32-bit word. -/
def not32 (x : ℕ) : ℕ := 4294967295 ^^^ x

/-- The 64 sine-derived round constants of MD5. -/
def md5K : List ℕ :=
  [0xd76aa478, 0xe8c7b756, 0x242070db, 0xc1bdceee,
   0xf57c0faf, 0x4787c62a, 0xa8304613, 0xfd469501,
   0x698098d8, 0x8b44f7af, 0xffff5bb1, 0x895cd7be,
   0x6b901122, 0xfd987193, 0xa679438e, 0x49b40821,
   0xf61e2562, 0xc040b340, 0x265e5a51, 0xe9b6c7aa,
   0xd62f105d, 0x02441453, 0xd8a1e681, 0xe7d3fbc8,
   0x21e1cde6, 0xc33707d6, 0xf4d50d87, 0x455a14ed,
   0xa9e3e905, 0xfcefa3f8, 0x676f02d9, 0x8d2a4c8a,
   0xfffa3942, 0x8771f681, 0x6d9d6122, 0xfde5380c,
   0xa4beea44, 0x4bdecfa9, 0xf6bb4b60, 0xbebfbc70,
   0x289b7ec6, 0xeaa127fa, 0xd4ef3085, 0x04881d05,
   0xd9d4d039, 0xe6db99e5, 0x1fa27cf8, 0xc4ac5665,
   0xf4292244, 0x432aff97, 0xab9423a7, 0xfc93a039,
   0x655b59c3, 0x8f0ccc92, 0xffeff47d, 0x85845dd1,
   0x6fa87e4f, 0xfe2ce6e0, 0xa3014314, 0x4e0811a1,
   0xf7537e82, 0xbd3af235, 0x2ad7d2bb, 0xeb86d391]

/-- The 64 per-round left-rotation amounts of MD5. -/
def md5S : List ℕ :=
  [7, 12, 17, 22, 7, 12, 17, 22, 7, 12, 17, 22, 7, 12, 17, 22,
   5, 9, 14, 20, 5, 9, 14, 20, 5, 9, 14, 20, 5, 9, 14, 20,
   4, 11, 16, 23, 4, 11, 16, 23, 4, 11, 16, 23, 4, 11, 16, 23,
   6, 10, 15, 21, 6, 10, 15, 21, 6, 10, 15, 21, 6, 10, 15, 21]

/-- The nonlinear mixing function of round `r` (0..3). -/
def md5F (r b c d : ℕ) : ℕ :=
  match r with
  | 0 => (b &&& c) ||| (not32 b &&& d)
  | 1 => (d &&& b) ||| (not32 d &&& c)
  | 2 => b ^^^ c ^^^ d
  | _ => c ^^^ (b ||| not32 d)

/-- Message-word index used at step `i` of round `r`. -/
def md5G (r i : ℕ) : ℕ :=
  match r with
  | 0 => i % 16
  | 1 => (5 * i + 1) % 16
  | 2 => (3 * i + 5) % 16
  | _ => (7 * i) % 16

structure MD5State where
  a : ℕ
  b : ℕ
  c : ℕ
  d : ℕ
deriving Repr, DecidableEq

/-- One of the 64 steps of an MD5 block computation; `M` is the
current 16-word message block. -/
def md5Step (M : List ℕ) (st : MD5State) (i : ℕ) : MD5State :=
  let r := i / 16
  let f := (md5F r st.b st.c st.d + st.a + md5K.getD i 0 + M.getD (md5G r i) 0) % m32
  ⟨st.d, (st.b + rotl32 f (md5S.getD i 0)) % m32, st.b, st.c⟩

/-- Process one 16-word block, adding the result into the running state. -/
def md5Block (st : MD5State) (M : List ℕ) : MD5State :=
  let e := (List.range 64).foldl (md5Step M) st
  ⟨(st.a + e.a) % m32, (st.b + e.b) % m32, (st.c + e.c) % m32, (st.d + e.d) % m32⟩

/-- UTF-8 encoding of one character (Python `str.encode('utf-8')`). -/
def utf8Char (ch : Char) : List ℕ :=
  let n := ch.toNat
  if n < 0x80 then [n]
  else if n < 0x800 then
    [0xc0 ||| n >>> 6, 0x80 ||| (n &&& 0x3f)]
  else if n < 0x10000 then
    [0xe0 ||| n >>> 12, 0x80 ||| (n >>> 6 &&& 0x3f), 0x80 ||| (n &&& 0x3f)]
  else
    [0xf0 ||| n >>> 18, 0x80 ||| (n >>> 12 &&& 0x3f),
     0x80 ||| (n >>> 6 &&& 0x3f), 0x80 ||| (n &&& 0x3f)]

/-- UTF-8 byte sequence of a string. -/
def utf8Bytes (s : String) : List ℕ :=
  s.data.foldr (fun ch acc => utf8Char ch ++ acc) []

/-- Little-endian byte list (length 8) of a 64-bit value. -/
def le64 (n : ℕ) : List ℕ := (List.range 8).map fun i => n >>> (8 * i) &&& 0xff

/-- Little-endian byte list (length 4) of a 32-bit word. -/
def le32 (n : ℕ) : List ℕ := (List.range 4).map fun i => n >>> (8 * i) &&& 0xff

/-- MD5 padding: append `0x80`, zero-pad to 56 mod 64, append the
bit length as a 64-bit little-endian value. -/
def md5Pad (msg : List ℕ) : List ℕ :=
  let z := (56 + 64 - ((msg.length + 1) % 64)) % 64
  msg ++ [0x80] ++ List.replicate z 0 ++ le64 ((8 * msg.length) % 2 ^ 64)

/-- Pack a little-endian byte list into 32-bit words, four bytes at a time. -/
def toWords : List ℕ → List ℕ
  | b0 :: b1 :: b2 :: b3 :: rest =>
    (b0 + 256 * (b1 + 256 * (b2 + 256 * b3))) :: toWords rest
  | _ => []

/-- The 16-byte MD5 digest of a string (bytes in output order). -/
def md5Digest (s : String) : List ℕ :=
  let ws := toWords (md5Pad (utf8Bytes s))
  let nblocks := ws.length / 16
  let st := (List.range nblocks).foldl
    (fun st bi => md5Block st ((List.range 16).map fun j => ws.getD (16 * bi + j) 0))
    ⟨0x67452301, 0xefcdab89, 0x98badcfe, 0x10325476⟩
  le32 st.a ++ le32 st.b ++ le32 st.c ++ le32 st.d

/-- `int(hashlib.md5(b).hexdigest(), base=16)`: the digest bytes read as a
big-endian integer. -/
def md5Int (s : String) : ℕ :=
  (md5Digest s).foldl (fun acc byte => acc * 256 + byte) 0

set_option maxRecDepth 10000

/-- Sanity check of the MD5 embedding against the RFC 1321 test value
`md5("") = d41d8cd98f00b204e9800998ecf8427e`. -/
theorem md5Int_empty : md5Int "" = 0xd41d8cd98f00b204e9800998ecf8427e := by decide

/-- Sanity check of the MD5 embedding against the RFC 1321 test value
`md5("abc") = 900150983cd24fb0d6963f7d28e17f72`. -/
theorem md5Int_abc : md5Int "abc" = 0x900150983cd24fb0d6963f7d28e17f72 := by decide

/-! ## Python value model

`doc.tags` values are JSON-like: integers, floats, booleans, strings,
null, and nested lists/tuples/mappings.  Python exceptions are modelled
by the kind of exception class raised. -/

inductive PyErr where
  | typeError
  | valueError
  | indexError
  | zeroDivisionError
deriving Repr, DecidableEq

/-- A Python number as returned by `_any_hash`: either an `int` or a
(finite) `float`.  The int/float distinction is observable: using a
float as a numpy index raises `IndexError`. -/
inductive PyNum where
  | int (n : ℤ)
  | float (q : ℚ)
deriving Repr, DecidableEq

/-- Numeric value of a `PyNum`. -/
def PyNum.val : PyNum → ℚ
  | .int n => (n : ℚ)
  | .float q => q

inductive TagValue where
  | int (n : ℤ)
  | float (q : ℚ)
  | bool (b : Bool)
  | str (s : String)
  | null
  | list (xs : List TagValue)
  | tup (xs : List TagValue)
  | dict (kvs : List (String × TagValue))

/-- Drop leading whitespace characters. -/
def dropWs : List Char → List Char
  | [] => []
  | c :: cs => if c.isWhitespace then dropWs cs else c :: cs

/-- Python `str.strip()`: remove leading and trailing whitespace
(ASCII whitespace; exotic Unicode space classes are not modelled). -/
def pyStrip (s : String) : String := ⟨dropWs ((dropWs s.data.reverse).reverse)⟩

/-- Python `str.lower()`. -/
def pyLower (s : String) : String := ⟨s.data.map Char.toLower⟩

/-- Value of a decimal-digit string (`none` if empty or non-digit). -/
def decDigits (cs : List Char) : Option ℕ :=
  if cs.isEmpty then none
  else cs.foldl
    (fun acc c => acc.bind fun n =>
      if c.isDigit then some (10 * n + (c.toNat - 48)) else none)
    (some 0)

/-- Python `int(s)` on a string: strip whitespace, optional sign, decimal
digits (ASCII; digit-group underscores and non-ASCII digits are not
modelled).  `none` models `ValueError`. -/
def pyParseInt (s : String) : Option ℤ :=
  match (pyStrip s).data with
  | '+' :: cs => (decDigits cs).map fun n => (n : ℤ)
  | '-' :: cs => (decDigits cs).map fun n => -(n : ℤ)
  | cs => (decDigits cs).map fun n => (n : ℤ)

/-- Split a character list at the first `e`/`E`, if any. -/
def splitOnExp : List Char → List Char × Option (List Char)
  | [] => ([], none)
  | c :: cs =>
    if c = 'e' ∨ c = 'E' then ([], some cs)
    else
      let r := splitOnExp cs
      (c :: r.1, r.2)

/-- Split a character list at the first `.`, if any. -/
def splitOnDot : List Char → List Char × Option (List Char)
  | [] => ([], none)
  | c :: cs =>
    if c = '.' then ([], some cs)
    else
      let r := splitOnDot cs
      (c :: r.1, r.2)

/-- Unsigned mantissa of a float literal: `D+ [. D*]` or `. D+`. -/
def parseMantissa (cs : List Char) : Option ℚ :=
  let r := splitOnDot cs
  match r.2 with
  | none => (decDigits r.1).map fun n => (n : ℚ)
  | some fp =>
    if r.1.isEmpty && fp.isEmpty then none
    else
      let ip? : Option ℕ := if r.1.isEmpty then some 0 else decDigits r.1
      let fp? : Option ℕ := if fp.isEmpty then some 0 else decDigits fp
      match ip?, fp? with
      | some ip, some f => some ((ip : ℚ) + (f : ℚ) / (10 : ℚ) ^ fp.length)
      | _, _ => none

/-- Signed exponent of a float literal: `[sign] D+`. -/
def parseExp (cs : List Char) : Option ℤ :=
  match cs with
  | '+' :: ds => (decDigits ds).map fun n => (n : ℤ)
  | '-' :: ds => (decDigits ds).map fun n => -(n : ℤ)
  | ds => (decDigits ds).map fun n => (n : ℤ)

/-- Python `float(s)` on a string, restricted to finite values: strip,
optional sign, mantissa, optional exponent.  Caveat of the exact-rational
float model: Python `float()` additionally accepts `nan`/`inf`/`infinity`
literals, which have no rational value and are treated as parse failures
here, and it rounds the decimal literal to the nearest binary64 double,
which is idealized away.  `none` models `ValueError`. -/
def pyParseFloat (s : String) : Option ℚ :=
  let base := (pyStrip s).data
  let sgncs : ℚ × List Char :=
    match base with
    | '+' :: cs => (1, cs)
    | '-' :: cs => (-1, cs)
    | cs => (1, cs)
  let se := splitOnExp sgncs.2
  let m? := parseMantissa se.1
  let e? : Option ℤ :=
    match se.2 with
    | none => some 0
    | some ecs => parseExp ecs
  match m?, e? with
  | some m, some e => some (sgncs.1 * m * (10 : ℚ) ^ e)
  | _, _ => none

/-- Python `int(f)` for a float: truncation toward zero. -/
def pyTrunc (q : ℚ) : ℤ := if q < 0 then ⌈q⌉ else ⌊q⌋

/-! ## `TagsHasher` (Image_Search_via_Text.ipynb)

```python
class TagsHasher(Executor):
    def __init__(self, n_dim: int = 256, max_val: int = 65536, sparse: bool = False, **kwargs):
        super().__init__(**kwargs)
        self.n_dim = n_dim
        self.max_val = max_val
        self.hash = hashlib.md5
        self.sparse = sparse
```
-/

structure TagsHasher where
  n_dim : ℤ := 256
  max_val : ℤ := 65536
  sparse : Bool := false
deriving Repr, DecidableEq

/-- `TagsHasher.__init__`: stores the configuration as given; the source
performs no validation of `n_dim`/`max_val`. -/
def TagsHasher.init (n_dim max_val : ℤ) (sparse : Bool) : TagsHasher :=
  { n_dim := n_dim, max_val := max_val, sparse := sparse }

/-- `TagsHasher._any_hash`.

```python
    def _any_hash(self, v):
        try:
            return int(v)  # parse int parameter
        except ValueError:
            try:
                return float(v)  # parse float parameter
            except ValueError:
                if not v:
                    # ignore it when the parameter is empty
                    return 0
                if isinstance(v, str):
                    v = v.strip()
                    if v.lower() in {'true', 'yes'}:  # parse boolean parameter
                        return 1
                    if v.lower() in {'false', 'no'}:
                        return 0
                if isinstance(v, (tuple, dict, list)):
                    v = json.dumps(v, sort_keys=True)
        return int(self.hash(str(v).encode('utf-8')).hexdigest(), base=16)
```

Only `ValueError` is caught, so `int(v)` on `None`, lists, tuples and
dicts raises `TypeError` out of `_any_hash`: the `json.dumps` branch and
the `if not v` branch for `None` are unreachable.  Values reaching the
final `return` are exactly the non-empty strings that parse as neither
int nor float and are not boolean-like; they are stripped and MD5-hashed. -/
def anyHash : TagValue → Except PyErr PyNum
  | .int n => .ok (.int n)
  | .float q => .ok (.int (pyTrunc q))
  | .bool b => .ok (.int (if b then 1 else 0))
  | .str s =>
    match pyParseInt s with
    | some n => .ok (.int n)
    | none =>
      match pyParseFloat s with
      | some q => .ok (.float q)
      | none =>
        if s = "" then .ok (.int 0)
        else
          let t := pyStrip s
          if pyLower t = "true" ∨ pyLower t = "yes" then .ok (.int 1)
          else if pyLower t = "false" ∨ pyLower t = "no" then .ok (.int 0)
          else .ok (.int (md5Int t))
  | .null => .error .typeError
  | .list _ => .error .typeError
  | .tup _ => .error .typeError
  | .dict _ => .error .typeError

/-- `np.sign` of a number (as a rational in `{-1, 0, 1}`). -/
def npSign (x : PyNum) : ℚ :=
  if x.val < 0 then -1 else if x.val = 0 then 0 else 1

/-- Python `%` with an integer right operand: floor modulus (result has
the sign of the divisor); `ZeroDivisionError` on a zero divisor.  Ints
stay ints and floats stay floats, as in Python.  The integer branch is
exact.  The float branch is the exact floor modulus in `[0, m)`; CPython
instead computes `fmod(x, m)` and then a rounded `+ m` when signs differ,
which can return exactly `m` (e.g. `-1e-100 % 1e100 == 1e100`) — an
IEEE-754 effect this exact model does not capture, so no claim settled
here relies on the float branch's upper bound. -/
def pyModPN (x : PyNum) (m : ℤ) : Except PyErr PyNum :=
  if m = 0 then .error .zeroDivisionError
  else
    match x with
    | .int n => .ok (.int (Int.fmod n m))
    | .float q => .ok (.float (q - m * ⌊q / (m : ℚ)⌋))

/-! The per-pair body of `TagsHasher.encode`'s loop, in source order:

```python
                for k, v in doc.tags.items():
                    h = self._any_hash(k)
                    sign_h = np.sign(h)
                    col = h % self.n_dim
                    val = self._any_hash(v)
                    sign_v = np.sign(val)
                    val = val % self.max_val
                    idxs.append((0, col))
                    val = sign_h * sign_v * val
                    data.append(val)
                    table[col] += val
```

Returns the target dimension and the signed contribution. -/

/-- The final `table[col] += val` step as an index computation: numpy
raises `IndexError` on a float-typed index, wraps a negative integer
index (counting from the end), and checks range against the table
length `n_dim`. -/
def tableAdd (th : TagsHasher) (col : PyNum) (contrib : ℚ) : Except PyErr (ℕ × ℚ) :=
  match col with
  | .float _ => .error .indexError
  | .int c =>
    if 0 ≤ (if c < 0 then c + th.n_dim else c) ∧ (if c < 0 then c + th.n_dim else c) < th.n_dim
    then .ok ((if c < 0 then c + th.n_dim else c).toNat, contrib)
    else .error .indexError

def pairContrib (th : TagsHasher) (kv : String × TagValue) : Except PyErr (ℕ × ℚ) :=
  match anyHash (.str kv.1) with
  | .error e => .error e
  | .ok h =>
    let sign_h := npSign h
    match pyModPN h th.n_dim with
    | .error e => .error e
    | .ok col =>
      match anyHash kv.2 with
      | .error e => .error e
      | .ok val0 =>
        let sign_v := npSign val0
        match pyModPN val0 th.max_val with
        | .error e => .error e
        | .ok valm => tableAdd th col (sign_h * sign_v * valm.val)

/-- `table[i] += q` on a dense table.  The table is `np.zeros(n_dim)`,
i.e. float64, and numpy's `+=` rounds each partial sum (float64 addition
is non-associative); here it is exact rational addition.  Properties
that depend on the accumulated values beyond this idealization (such as
order-(in)dependence of colliding float contributions) are out of the
model's scope. -/
def setAdd (t : List ℚ) (i : ℕ) (q : ℚ) : List ℚ := t.set i (t.getD i 0 + q)

/-- The `for k, v in doc.tags.items():` loop of `TagsHasher.encode`
accumulating into `table`; the first Python exception aborts the loop. -/
def encodeLoop (th : TagsHasher) : List (String × TagValue) → List ℚ → Except PyErr (List ℚ)
  | [], table => .ok table
  | kv :: rest, table =>
    match pairContrib th kv with
    | .error e => .error e
    | .ok iq => encodeLoop th rest (setAdd table iq.1 iq.2)

/-- Body of `TagsHasher.encode` for one document with non-empty tags
(dense case, `sparse=False` as in the notebook): `table = np.zeros(n_dim)`
(`ValueError` for a negative dimension), then the loop.  Tag mappings are
lists of pairs in dict insertion order. -/
def rawEncode (th : TagsHasher) (tags : List (String × TagValue)) : Except PyErr (List ℚ) :=
  if th.n_dim < 0 then .error .valueError
  else encodeLoop th tags (List.replicate th.n_dim.toNat 0)

/-- `TagsHasher.encode` for one document: `if doc.tags:` skips documents
with no attributes (no embedding is attached, modelled as `none`). -/
def encodeDoc (th : TagsHasher) (tags : List (String × TagValue)) :
    Except PyErr (Option (List ℚ)) :=
  if tags.isEmpty then .ok none else (rawEncode th tags).map some

/-! ## Documents, `SimpleRanker` and `LMDBStorage` (src/unnamed/part_001)

For the ranking/resolution pipeline a document is observed through its
identifier, its parent back-reference, its named scores and an opaque
payload standing for all remaining fields (uri, tensor, embedding, ...).
docarray reads an unset `parent_id` back as the empty string, and
`doc.scores[metric].value` of an absent metric as `0`. -/

structure PyDoc where
  id : String := ""
  parent_id : String := ""
  scores : List (String × ℚ) := []
  payload : String := ""
deriving Repr, DecidableEq

instance : Inhabited PyDoc := ⟨{}⟩

/-- Binary minimum on `ℚ` (Python `min`). -/
def ratMin (a b : ℚ) : ℚ := if a ≤ b then a else b

/-- `doc.scores[metric].value` (defaulting to `0` when absent). -/
def findScore (scores : List (String × ℚ)) (metric : String) : ℚ :=
  match scores with
  | [] => 0
  | mv :: rest => if mv.1 = metric then mv.2 else findScore rest metric

def PyDoc.score (d : PyDoc) (metric : String) : ℚ := findScore d.scores metric

namespace SimpleRanker

/-- `self.metric = 'cosine'` from `SimpleRanker.__init__`. -/
def metric : String := "cosine"

/-- `parents_scores[m.parent_id].append(...)` on an insertion-ordered
`defaultdict(list)`. -/
def addScore (gs : List (String × List ℚ)) (pid : String) (s : ℚ) :
    List (String × List ℚ) :=
  match gs with
  | [] => [(pid, [s])]
  | g :: rest => if g.1 = pid then (g.1, g.2 ++ [s]) :: rest else g :: addScore rest pid s

/-- The first loop of `SimpleRanker.rank`:

```python
            parents_scores = defaultdict(list)
            for m in doc.matches:
                parents_scores[m.parent_id].append(m.scores[self.metric].value)
```
-/
def collectGroups (ms : List PyDoc) : List (String × List ℚ) :=
  ms.foldl (fun gs m => addScore gs m.parent_id (m.score metric)) []

/-- Python `min` over a non-empty list (`0` on `[]`, unreachable here:
every group holds at least one score). -/
def listMin : List ℚ → ℚ
  | [] => 0
  | x :: rest => rest.foldl ratMin x

/-- `Document(id=match_parent_id, scores={self.metric: NamedScore(value=score)})`. -/
def mkMatch (pid : String) (s : ℚ) : PyDoc :=
  { id := pid, scores := [(metric, s)] }

/-- Stable ascending insertion keyed by `d.scores[metric].value`,
matching Python's stable `sorted(matches, key=lambda d: ...)`. -/
def insertSorted (d : PyDoc) : List PyDoc → List PyDoc
  | [] => [d]
  | e :: rest =>
    if e.score metric ≤ d.score metric then e :: insertSorted d rest
    else d :: e :: rest

def sortByScore (l : List PyDoc) : List PyDoc :=
  l.foldl (fun acc d => insertSorted d acc) []

/-- `SimpleRanker.rank` for one query document:

```python
            matches = []
            for match_parent_id, scores in parents_scores.items():
                score = min(scores)
                matches.append(
                    Document(id=match_parent_id, scores={self.metric: NamedScore(value=score)})
                )
            doc.matches.clear()
            doc.matches.extend(sorted(matches, key=lambda d: d.scores[self.metric].value))
```

The returned list is the query's new match list; the old chunk-level
list is discarded by `clear()`. -/
def rank (ms : List PyDoc) : List PyDoc :=
  sortByScore ((collectGroups ms).map fun g => mkMatch g.1 (listMin g.2))

end SimpleRanker

namespace LMDBStorage

/-- `transaction.get(key)` against the key-value store (LMDB holds one
value per key; the store is an association list with distinct keys). -/
def lookupKey (store : List (String × PyDoc)) (k : String) : Option PyDoc :=
  match store with
  | [] => none
  | e :: rest => if e.1 = k then some e.2 else lookupKey rest k

/-- One iteration of the `LMDBStorage.search` inner loop:

```python
                for match_doc in doc.matches:
                  id = match_doc.id
                  serialized_doc = Document.from_bytes(transaction.get(match_doc.id.encode()))
                  match_doc.copy_from(serialized_doc)
                  match_doc.id = id
```

`copy_from` overwrites the whole match document with the stored payload;
only the identifier is saved and written back.  For a missing key,
`transaction.get` returns `None` and `Document.from_bytes(None)` raises
`TypeError`, aborting the request. -/
def resolveMatch (store : List (String × PyDoc)) (m : PyDoc) : Except PyErr PyDoc :=
  match lookupKey store m.id with
  | none => .error .typeError
  | some d => .ok { d with id := m.id }

/-- `LMDBStorage.search` over one query's match list; the first raised
exception aborts the whole loop and no result list is produced. -/
def search (store : List (String × PyDoc)) : List PyDoc → Except PyErr (List PyDoc)
  | [] => .ok []
  | m :: rest =>
    match resolveMatch store m with
    | .error e => .error e
    | .ok r => (search store rest).map fun rs => r :: rs

end LMDBStorage

deriving instance DecidableEq for Except

/-! ## Claims about `SimpleRanker.rank` -/

unseal Rat.add Rat.sub Rat.mul Rat.inv in
/-- C1: for a query whose chunk-level match list is
`[(chunk1, parentA, 0.1), (chunk2, parentA, 0.05), (chunk3, parentB, 0.2)]`
under the lower-is-better cosine metric, `SimpleRanker.rank` produces
exactly the parent-level list `[(parentA, 0.05), (parentB, 0.2)]`: each
parent's score is the minimum over its chunks' scores and the output is
sorted ascending by aggregated score. -/
theorem rank_min_aggregation_example :
    SimpleRanker.rank
      [{ id := "chunk1", parent_id := "parentA", scores := [("cosine", 1/10)] },
       { id := "chunk2", parent_id := "parentA", scores := [("cosine", 1/20)] },
       { id := "chunk3", parent_id := "parentB", scores := [("cosine", 1/5)] }] =
    [{ id := "parentA", scores := [("cosine", 1/20)] },
     { id := "parentB", scores := [("cosine", 1/5)] }] := by decide

/-! ## Claims about `_any_hash` totality (C4) -/

/-- C4 (code evaluated at the failing inputs): `_any_hash` is not total on
the supported value shapes.  `int(v)` raises `TypeError` (not the caught
`ValueError`) on `None`, lists, tuples and dicts, so `_any_hash` raises
instead of falling through to canonical string serialization; the
`json.dumps(v, sort_keys=True)` branch is unreachable. -/
theorem anyHash_composites_raise :
    anyHash .null = .error .typeError ∧
    anyHash (.list [.int 1, .int 2]) = .error .typeError ∧
    anyHash (.tup [.str "a"]) = .error .typeError ∧
    anyHash (.dict [("k", .int 1)]) = .error .typeError := by decide

/-! ## Claims about `TagsHasher.__init__` (C9) -/

/-- C9 (counterexample): construction with `n_dim = 0` does not fail:
`TagsHasher.__init__` performs no validation and returns a hasher
storing the non-positive configuration unchanged. -/
theorem tagsHasher_init_accepts_nonpositive_cex :
    TagsHasher.init 0 65536 false =
      { n_dim := 0, max_val := 65536, sparse := false } := rfl

/-- `_any_hash` never raises on a (string) attribute name. -/
theorem anyHash_str_ok (s : String) : ∃ x, anyHash (.str s) = .ok x := by
  simp only [anyHash]
  cases pyParseInt s with
  | some n => exact ⟨_, rfl⟩
  | none =>
    cases pyParseFloat s with
    | some q => exact ⟨_, rfl⟩
    | none =>
      by_cases h1 : s = ""
      · simp only [h1, if_pos rfl]; exact ⟨_, rfl⟩
      · simp only [if_neg h1]
        split
        · exact ⟨_, rfl⟩
        · split
          · exact ⟨_, rfl⟩
          · exact ⟨_, rfl⟩

/-- C9 (amended): the bad configuration is accepted at construction time
and the failure only surfaces at encode time: with `n_dim = 0`, hashing
any non-empty tag mapping raises `ZeroDivisionError` at `h % self.n_dim`. -/
theorem tagsHasher_init_defers_failure (max_val : ℤ) (sparse : Bool)
    (tags : List (String × TagValue)) (h : tags ≠ []) :
    rawEncode (TagsHasher.init 0 max_val sparse) tags = .error .zeroDivisionError := by
  cases tags with
  | nil => exact absurd rfl h
  | cons kv rest =>
    obtain ⟨x, hx⟩ := anyHash_str_ok kv.1
    have hpc : pairContrib { n_dim := 0, max_val := max_val, sparse := sparse } kv =
        .error .zeroDivisionError := by
      simp [pairContrib, hx, pyModPN]
    simp [rawEncode, TagsHasher.init, encodeLoop, hpc]

/-- C9 witness: the amended theorem applied to a concrete non-empty
tag mapping. -/
theorem tagsHasher_init_defers_failure_witness :
    ([("k", TagValue.int 1)] : List (String × TagValue)) ≠ [] ∧
    rawEncode (TagsHasher.init 0 65536 false) [("k", TagValue.int 1)] =
      .error .zeroDivisionError :=
  ⟨List.cons_ne_nil _ _,
   tagsHasher_init_defers_failure 65536 false _ (List.cons_ne_nil _ _)⟩

/-! ## Claims about `LMDBStorage.search` (C5, C6) -/

unseal Rat.add Rat.sub Rat.mul Rat.inv in
/-- C5 (counterexample): resolution does not preserve the aggregated
score.  `match_doc.copy_from(serialized_doc)` overwrites every field
with the stored parent payload and only the identifier is restored, so
a match carrying aggregated cosine score `0.05` comes back with the
stored document's (empty) scores: its cosine score reads as `0`. -/
theorem search_overwrites_score_cex :
    LMDBStorage.search [("pA", { id := "pA", payload := "full-a" })]
      [{ id := "pA", scores := [("cosine", 1/20)] }] =
      .ok [{ id := "pA", payload := "full-a" }] ∧
    ({ id := "pA", payload := "full-a" } : PyDoc).score "cosine" ≠ (1/20 : ℚ) := by
  decide

/-- C5 (amended): on a successful search, every match is replaced by the
stored payload looked up under its identifier, with only the identifier
preserved; in particular the aggregated score survives only if the
stored copy carries it. -/
theorem search_resolves_from_store (store : List (String × PyDoc)) (ms rs : List PyDoc)
    (h : LMDBStorage.search store ms = .ok rs) :
    rs.length = ms.length ∧
    ∀ i, i < ms.length →
      (rs.getD i default).id = (ms.getD i default).id ∧
      ∃ d, LMDBStorage.lookupKey store (ms.getD i default).id = some d ∧
        rs.getD i default = { d with id := (ms.getD i default).id } := by
  induction ms generalizing rs with
  | nil =>
    simp only [LMDBStorage.search] at h
    cases h
    exact ⟨rfl, fun i hi => absurd hi (Nat.not_lt_zero i)⟩
  | cons m rest ih =>
    simp only [LMDBStorage.search] at h
    cases hr : LMDBStorage.resolveMatch store m with
    | error e => rw [hr] at h; cases h
    | ok r =>
      rw [hr] at h
      cases hrest : LMDBStorage.search store rest with
      | error e => rw [hrest] at h; cases h
      | ok rs' =>
        rw [hrest] at h
        cases h
        obtain ⟨hlen, hall⟩ := ih rs' hrest
        have hm : ∃ d, LMDBStorage.lookupKey store m.id = some d ∧
            r = { d with id := m.id } := by
          simp only [LMDBStorage.resolveMatch] at hr
          cases hl : LMDBStorage.lookupKey store m.id with
          | none => rw [hl] at hr; cases hr
          | some d => rw [hl] at hr; cases hr; exact ⟨d, rfl, rfl⟩
        constructor
        · simp [hlen]
        · intro i hi
          cases i with
          | zero =>
            obtain ⟨d, hd, hrd⟩ := hm
            refine ⟨?_, d, hd, ?_⟩ <;> simp [hrd]
          | succ i' =>
            simp only [List.getD_cons_succ]
            exact hall i' (Nat.lt_of_succ_lt_succ hi)

unseal Rat.add Rat.sub Rat.mul Rat.inv in
/-- C5 witness: the amended theorem applied to a concrete store and
match list. -/
theorem search_resolves_from_store_witness :
    ([{ id := "pA", payload := "full-a" }] : List PyDoc).length =
      ([{ id := "pA", scores := [("cosine", 1/20)] }] : List PyDoc).length ∧
    ∀ i, i < ([{ id := "pA", scores := [("cosine", 1/20)] }] : List PyDoc).length →
      (([{ id := "pA", payload := "full-a" }] : List PyDoc).getD i default).id =
        (([{ id := "pA", scores := [("cosine", 1/20)] }] : List PyDoc).getD i default).id ∧
      ∃ d, LMDBStorage.lookupKey [("pA", { id := "pA", payload := "full-a" })]
          (([{ id := "pA", scores := [("cosine", 1/20)] }] : List PyDoc).getD i default).id = some d ∧
        ([{ id := "pA", payload := "full-a" }] : List PyDoc).getD i default =
          { d with id := (([{ id := "pA", scores := [("cosine", 1/20)] }] : List PyDoc).getD i default).id } :=
  search_resolves_from_store [("pA", { id := "pA", payload := "full-a" })]
    [{ id := "pA", scores := [("cosine", 1/20)] }]
    [{ id := "pA", payload := "full-a" }] (by decide)

unseal Rat.add Rat.sub Rat.mul Rat.inv in
/-- C6 (counterexample): with `parentA` absent from the store and
`parentB` present, the search raises `TypeError`
(`Document.from_bytes(None)`) at the first missing identifier: no
failure report names the identifier and no entry is returned for the
present `parentB` either. -/
theorem search_missing_aborts_cex :
    LMDBStorage.search [("pB", { id := "pB", payload := "full-b" })]
      [{ id := "pA", scores := [("cosine", 1/20)] },
       { id := "pB", scores := [("cosine", 1/5)] }] = .error .typeError ∧
    LMDBStorage.lookupKey [("pB", { id := "pB", payload := "full-b" })] "pB" ≠ none := by
  decide

/-- C6 (amended): whenever any match's parent identifier is absent from
the store, the whole search fails with `TypeError` and no resolved list
is produced (matches with present identifiers included). -/
theorem search_missing_key_raises (store : List (String × PyDoc)) (ms : List PyDoc)
    (h : ∃ m ∈ ms, LMDBStorage.lookupKey store m.id = none) :
    LMDBStorage.search store ms = .error .typeError := by
  induction ms with
  | nil => obtain ⟨m, hm, _⟩ := h; cases hm
  | cons m rest ih =>
    simp only [LMDBStorage.search]
    cases hl : LMDBStorage.lookupKey store m.id with
    | none => simp [LMDBStorage.resolveMatch, hl]
    | some d =>
      have hrest : ∃ m' ∈ rest, LMDBStorage.lookupKey store m'.id = none := by
        obtain ⟨m', hm', hl'⟩ := h
        cases List.mem_cons.mp hm' with
        | inl heq => rw [heq] at hl'; rw [hl'] at hl; cases hl
        | inr hmem => exact ⟨m', hmem, hl'⟩
      simp [LMDBStorage.resolveMatch, hl, ih hrest, Except.map]

/-- C6 witness: the amended theorem applied to a concrete store missing
one identifier. -/
theorem search_missing_key_raises_witness :
    (∃ m ∈ ([{ id := "pA", scores := [("cosine", 1/20)] }] : List PyDoc),
      LMDBStorage.lookupKey [("pB", { id := "pB", payload := "full-b" })] m.id = none) ∧
    LMDBStorage.search [("pB", { id := "pB", payload := "full-b" })]
      [{ id := "pA", scores := [("cosine", 1/20)] }] = .error .typeError :=
  ⟨⟨_, List.mem_singleton_self _, rfl⟩,
   search_missing_key_raises _ _ ⟨_, List.mem_singleton_self _, rfl⟩⟩

/-! ## Idempotence of `SimpleRanker.rank` (C8) -/

unseal Rat.add Rat.sub Rat.mul Rat.inv in
/-- C8 (counterexample): `rank` is not idempotent.  Its output matches
carry no `parent_id` (docarray reads the unset field back as `""`), so a
second application groups every parent-level match under the single
default key and collapses the list. -/
theorem rank_not_idempotent_cex :
    SimpleRanker.rank (SimpleRanker.rank
      [{ id := "c1", parent_id := "pA", scores := [("cosine", 1/10)] },
       { id := "c3", parent_id := "pB", scores := [("cosine", 1/5)] }]) ≠
    SimpleRanker.rank
      [{ id := "c1", parent_id := "pA", scores := [("cosine", 1/10)] },
       { id := "c3", parent_id := "pB", scores := [("cosine", 1/5)] }] := by decide

/-! ## One aggregated match per distinct parent (C7) -/

theorem keys_addScore (gs : List (String × List ℚ)) (pid : String) (s : ℚ) :
    (SimpleRanker.addScore gs pid s).map Prod.fst =
      if pid ∈ gs.map Prod.fst then gs.map Prod.fst else gs.map Prod.fst ++ [pid] := by
  induction gs with
  | nil => simp [SimpleRanker.addScore]
  | cons g rest ih =>
    by_cases hg : g.1 = pid
    · simp [SimpleRanker.addScore, hg]
    · simp only [SimpleRanker.addScore, if_neg hg, List.map_cons, ih]
      by_cases hmem : pid ∈ rest.map Prod.fst
      · rw [if_pos hmem, if_pos (by simp [hmem])]
      · have hnot : ¬ pid ∈ g.1 :: rest.map Prod.fst := by
          simp only [List.mem_cons]
          push_neg
          exact ⟨fun hcon => hg hcon.symm, hmem⟩
        rw [if_neg hmem, if_neg hnot]
        simp

theorem keys_nodup_addScore (gs : List (String × List ℚ)) (pid : String) (s : ℚ)
    (h : (gs.map Prod.fst).Nodup) :
    ((SimpleRanker.addScore gs pid s).map Prod.fst).Nodup := by
  rw [keys_addScore]
  split
  · exact h
  · rename_i hmem
    simp [List.nodup_append, h, hmem]

theorem collect_nodup (ms : List PyDoc) :
    ∀ gs : List (String × List ℚ), (gs.map Prod.fst).Nodup →
      ((ms.foldl (fun gs m => SimpleRanker.addScore gs m.parent_id
        (m.score SimpleRanker.metric)) gs).map Prod.fst).Nodup := by
  induction ms with
  | nil => intro gs h; exact h
  | cons m rest ih =>
    intro gs h
    rw [List.foldl_cons]
    exact ih _ (keys_nodup_addScore _ _ _ h)

theorem collect_mem (ms : List PyDoc) :
    ∀ (gs : List (String × List ℚ)) (p : String),
      (p ∈ (ms.foldl (fun gs m => SimpleRanker.addScore gs m.parent_id
        (m.score SimpleRanker.metric)) gs).map Prod.fst) ↔
      p ∈ gs.map Prod.fst ∨ p ∈ ms.map PyDoc.parent_id := by
  induction ms with
  | nil => intro gs p; simp
  | cons m rest ih =>
    intro gs p
    rw [List.foldl_cons, ih, keys_addScore]
    by_cases hmem : m.parent_id ∈ gs.map Prod.fst
    · rw [if_pos hmem]
      simp only [List.map_cons, List.mem_cons]
      constructor
      · intro hyp
        rcases hyp with hyp | hyp
        · exact Or.inl hyp
        · exact Or.inr (Or.inr hyp)
      · intro hyp
        rcases hyp with hyp | hyp | hyp
        · exact Or.inl hyp
        · exact Or.inl (hyp ▸ hmem)
        · exact Or.inr hyp
    · rw [if_neg hmem]
      simp only [List.map_cons, List.mem_cons, List.mem_append, List.mem_singleton]
      tauto

theorem insertSorted_perm (d : PyDoc) (l : List PyDoc) :
    (SimpleRanker.insertSorted d l).Perm (d :: l) := by
  induction l with
  | nil => exact List.Perm.refl _
  | cons e rest ih =>
    unfold SimpleRanker.insertSorted
    split
    · exact (List.Perm.cons e ih).trans (List.Perm.swap d e rest)
    · exact List.Perm.refl _

theorem sortByScore_perm_aux :
    ∀ (l acc : List PyDoc),
      (l.foldl (fun a d => SimpleRanker.insertSorted d a) acc).Perm (l ++ acc) := by
  intro l
  induction l with
  | nil => intro acc; simp
  | cons d rest ih =>
    intro acc
    rw [List.foldl_cons]
    have h1 := ih (SimpleRanker.insertSorted d acc)
    have h2 : (rest ++ SimpleRanker.insertSorted d acc).Perm (rest ++ d :: acc) :=
      List.Perm.append_left rest (insertSorted_perm d acc)
    simpa using h1.trans (h2.trans List.perm_middle)

theorem sortByScore_perm (l : List PyDoc) : (SimpleRanker.sortByScore l).Perm l := by
  simpa [SimpleRanker.sortByScore] using sortByScore_perm_aux l []

theorem rank_ids_perm (ms : List PyDoc) :
    ((SimpleRanker.rank ms).map PyDoc.id).Perm
      ((SimpleRanker.collectGroups ms).map Prod.fst) := by
  unfold SimpleRanker.rank
  refine ((sortByScore_perm _).map PyDoc.id).trans ?_
  rw [List.map_map]
  have hcomp : (PyDoc.id ∘ fun g : String × List ℚ =>
      SimpleRanker.mkMatch g.1 (SimpleRanker.listMin g.2)) = Prod.fst := by
    funext g
    rfl
  rw [hcomp]

/-- C7: the reranked output carries exactly one match per distinct parent
identifier observed in the chunk-level input: the output ids are
duplicate-free and a parent id appears in the output iff it appears as
some input chunk's parent; the chunk-level list itself is replaced by
this new list (`doc.matches.clear()` + `extend`). -/
theorem rank_one_match_per_parent (ms : List PyDoc) :
    ((SimpleRanker.rank ms).map PyDoc.id).Nodup ∧
    ∀ p : String, p ∈ (SimpleRanker.rank ms).map PyDoc.id ↔ p ∈ ms.map PyDoc.parent_id := by
  have hperm := rank_ids_perm ms
  constructor
  · exact (hperm.nodup_iff).mpr (collect_nodup ms [] (by simp))
  · intro p
    rw [hperm.mem_iff]
    have hmem := collect_mem ms [] p
    simpa [SimpleRanker.collectGroups] using hmem

/-! ## Non-idempotence of `SimpleRanker.rank` (C8)

The matches built by `rank` are fresh `Document(id=parent_id, scores=...)`
objects with no `parent_id` of their own; docarray reads the unset field
back as the empty string, so a second application groups everything under
the single key `""`. -/

theorem rank_parent_ids_default (ms : List PyDoc) :
    ∀ d ∈ SimpleRanker.rank ms, d.parent_id = "" := by
  intro d hd
  have hperm := sortByScore_perm ((SimpleRanker.collectGroups ms).map
    fun g => SimpleRanker.mkMatch g.1 (SimpleRanker.listMin g.2))
  have hd' : d ∈ (SimpleRanker.collectGroups ms).map
      (fun g => SimpleRanker.mkMatch g.1 (SimpleRanker.listMin g.2)) :=
    hperm.mem_iff.mp hd
  obtain ⟨g, -, rfl⟩ := List.mem_map.mp hd'
  rfl

theorem addScore_ne_nil (gs : List (String × List ℚ)) (pid : String) (s : ℚ) :
    SimpleRanker.addScore gs pid s ≠ [] := by
  cases gs with
  | nil => simp [SimpleRanker.addScore]
  | cons g rest =>
    unfold SimpleRanker.addScore
    split <;> simp

theorem collect_ne_nil_aux :
    ∀ (ms : List PyDoc) (gs : List (String × List ℚ)), gs ≠ [] →
      ms.foldl (fun gs m => SimpleRanker.addScore gs m.parent_id
        (m.score SimpleRanker.metric)) gs ≠ [] := by
  intro ms
  induction ms with
  | nil => intro gs h; exact h
  | cons m rest ih =>
    intro gs _
    rw [List.foldl_cons]
    exact ih _ (addScore_ne_nil _ _ _)

theorem collectGroups_ne_nil {ms : List PyDoc} (h : ms ≠ []) :
    SimpleRanker.collectGroups ms ≠ [] := by
  cases ms with
  | nil => exact absurd rfl h
  | cons m rest =>
    unfold SimpleRanker.collectGroups
    rw [List.foldl_cons]
    exact collect_ne_nil_aux rest _ (addScore_ne_nil _ _ _)

theorem collect_all_default :
    ∀ (l : List PyDoc) (ss : List ℚ), (∀ d ∈ l, d.parent_id = "") →
      l.foldl (fun gs m => SimpleRanker.addScore gs m.parent_id
        (m.score SimpleRanker.metric)) [("", ss)] =
      [("", ss ++ l.map fun d => d.score SimpleRanker.metric)] := by
  intro l
  induction l with
  | nil => intro ss _; simp
  | cons d rest ih =>
    intro ss hall
    rw [List.foldl_cons]
    have hd : d.parent_id = "" := hall d (List.mem_cons_self _ _)
    have hstep : SimpleRanker.addScore [("", ss)] d.parent_id (d.score SimpleRanker.metric) =
        [("", ss ++ [d.score SimpleRanker.metric])] := by
      simp [SimpleRanker.addScore, hd]
    rw [hstep, ih _ (fun d' h' => hall d' (List.mem_cons_of_mem _ h'))]
    simp

/-- C8 (amended): `rank` is not idempotent in general.  Its output
matches carry no `parent_id` (docarray reads the unset field back as the
empty string), so on any non-empty input the second application groups
every match under the single empty default key and collapses the
parent-level list to exactly one match with empty id whose score is the
minimum of the aggregated scores. -/
theorem rank_twice_collapses (ms : List PyDoc) (h : ms ≠ []) :
    SimpleRanker.rank (SimpleRanker.rank ms) =
      [{ id := "", scores := [(SimpleRanker.metric, SimpleRanker.listMin
          ((SimpleRanker.rank ms).map fun d => d.score SimpleRanker.metric))] }] := by
  have hdefault := rank_parent_ids_default ms
  obtain ⟨d, rest, hcons⟩ : ∃ d rest, SimpleRanker.rank ms = d :: rest := by
    cases hr : SimpleRanker.rank ms with
    | nil =>
      exfalso
      have hperm := sortByScore_perm ((SimpleRanker.collectGroups ms).map
        fun g => SimpleRanker.mkMatch g.1 (SimpleRanker.listMin g.2))
      have hmapnil : ((SimpleRanker.collectGroups ms).map
          fun g => SimpleRanker.mkMatch g.1 (SimpleRanker.listMin g.2)) = [] := by
        have hx : SimpleRanker.sortByScore ((SimpleRanker.collectGroups ms).map
            fun g => SimpleRanker.mkMatch g.1 (SimpleRanker.listMin g.2)) = [] := hr
        have := hperm.symm
        rw [hx] at this
        exact this.eq_nil
      exact collectGroups_ne_nil h (List.map_eq_nil_iff.mp hmapnil)
    | cons d rest => exact ⟨d, rest, rfl⟩
  have hd0 : d.parent_id = "" := hdefault d (hcons ▸ List.mem_cons_self d rest)
  have hrest0 : ∀ d' ∈ rest, d'.parent_id = "" :=
    fun d' h' => hdefault d' (hcons ▸ List.mem_cons_of_mem d h')
  have hstep0 : SimpleRanker.addScore [] d.parent_id (d.score SimpleRanker.metric) =
      [("", [d.score SimpleRanker.metric])] := by
    simp [SimpleRanker.addScore, hd0]
  have hss' := collect_all_default rest [d.score SimpleRanker.metric] hrest0
  have hcg : SimpleRanker.collectGroups (SimpleRanker.rank ms) =
      [("", (SimpleRanker.rank ms).map fun d => d.score SimpleRanker.metric)] := by
    rw [hcons]
    unfold SimpleRanker.collectGroups
    rw [List.foldl_cons, hstep0, hss']
    simp
  show SimpleRanker.sortByScore ((SimpleRanker.collectGroups (SimpleRanker.rank ms)).map
    fun g => SimpleRanker.mkMatch g.1 (SimpleRanker.listMin g.2)) = _
  rw [hcg]
  rfl

/-- C8 witness: the amended theorem applied to a concrete one-chunk
match list. -/
theorem rank_twice_collapses_witness :
    ([{ id := "c1", parent_id := "pA", scores := [("cosine", 1/10)] }] : List PyDoc) ≠ [] ∧
    SimpleRanker.rank (SimpleRanker.rank
        [{ id := "c1", parent_id := "pA", scores := [("cosine", 1/10)] }]) =
      [{ id := "", scores := [(SimpleRanker.metric, SimpleRanker.listMin
          ((SimpleRanker.rank
            [{ id := "c1", parent_id := "pA", scores := [("cosine", 1/10)] }]).map
              fun d => d.score SimpleRanker.metric))] }] :=
  ⟨List.cons_ne_nil _ _, rank_twice_collapses _ (List.cons_ne_nil _ _)⟩

end TutorialNotebooks
